import Mathlib

/-!
Verification development for the dual-account trading system
(`Run_System_Dual.py`).  The Python source is embedded shallowly:

* `MT5Context.execute` (the Session Gate) is modelled twice — as a
  labelled transition system over thread phases for the concurrency
  claims, and as a pure function from an environment (did
  `mt5.initialize` succeed, did the work function raise) to a result
  and an event trace for the error-handling claims;
* `SharedState` (the Zone Cache) is modelled over a small heap of list
  references so that the copy-on-read of `get_zones` is visible;
* `AccountMonitor` zone bookkeeping (`mark_zone_as_used`,
  `is_zone_used`, the tick scan of `run`/`logic_step`) and
  `calculate_lot_size` are direct functional translations;
* `TradeMonitor._check_trades_for_account` (the reconciler) is a
  function from broker responses to updated trade rows and a balance
  delta;
* `DataUpdater.load_fvg_zones` / `DataUpdater.run` give the refresher
  cycle.

Prices and money amounts are embedded as `ℚ`.  The file lists all
definitions first and all theorems second.
-/

namespace TradeAi

/-! ## Definitions -/

/-! ### Session Gate: transition-system model of `MT5Context.execute`

Each thread executing `MT5Context.execute` passes through the phases
`idle` (before `with self.lock`), `locked` (holding the lock, no broker
session open) and `sessionOpen` (after a successful `mt5.initialize`).
The structure of the Python code dictates the transitions: the lock is
acquired only when free; `mt5.initialize` runs only while holding the
lock; the `finally: mt5.shutdown()` block runs before `with self.lock`
exits, so a thread releases the lock only from the `locked` phase. -/

inductive Phase where
  | idle
  | locked
  | sessionOpen
deriving DecidableEq, Repr

structure GateState where
  lockOwner : Option ℕ
  phase : ℕ → Phase

def initGate : GateState :=
  { lockOwner := none, phase := fun _ => Phase.idle }

inductive GateStep : GateState → GateState → Prop where
  | acquire (t : ℕ) (s : GateState)
      (hFree : s.lockOwner = none) (hPh : s.phase t = Phase.idle) :
      GateStep s { lockOwner := some t, phase := Function.update s.phase t Phase.locked }
  | initOk (t : ℕ) (s : GateState)
      (hOwn : s.lockOwner = some t) (hPh : s.phase t = Phase.locked) :
      GateStep s { lockOwner := s.lockOwner, phase := Function.update s.phase t Phase.sessionOpen }
  | shutdownSession (t : ℕ) (s : GateState)
      (hOwn : s.lockOwner = some t) (hPh : s.phase t = Phase.sessionOpen) :
      GateStep s { lockOwner := s.lockOwner, phase := Function.update s.phase t Phase.locked }
  | release (t : ℕ) (s : GateState)
      (hOwn : s.lockOwner = some t) (hPh : s.phase t = Phase.locked) :
      GateStep s { lockOwner := none, phase := Function.update s.phase t Phase.idle }

inductive GateReachable : GateState → Prop where
  | init : GateReachable initGate
  | step {s s' : GateState} : GateReachable s → GateStep s s' → GateReachable s'

/-- Inductive invariant: any thread that is past the lock acquisition
(its phase is not `idle`) is the current lock owner. -/
def GateInv (s : GateState) : Prop :=
  ∀ t, s.phase t ≠ Phase.idle → s.lockOwner = some t

/-! ### Session Gate: functional model of `MT5Context.execute`

`execute` is re-expressed as a pure function of its environment: whether
`mt5.initialize` succeeds for the given credentials, and the outcome of
the work function (`Except.ok` a normal return, `Except.error` a raised
exception).  Its output is the returned value together with the ordered
event trace the Python body produces. -/

inductive MT5Event where
  | lockAcquired
  | initAttempt
  | initFailure
  | funcInvoked
  | sessionShutdown
  | lockReleased
deriving DecidableEq, Repr

namespace MT5Context

def execute {α : Type} (initSucceeds : Bool) (funcOutcome : Except String α) :
    Option α × List MT5Event :=
  if initSucceeds then
    match funcOutcome with
    | Except.ok a =>
        (some a,
         [MT5Event.lockAcquired, MT5Event.initAttempt, MT5Event.funcInvoked,
          MT5Event.sessionShutdown, MT5Event.lockReleased])
    | Except.error _ =>
        (none,
         [MT5Event.lockAcquired, MT5Event.initAttempt, MT5Event.funcInvoked,
          MT5Event.sessionShutdown, MT5Event.lockReleased])
  else
    (none,
     [MT5Event.lockAcquired, MT5Event.initAttempt, MT5Event.initFailure,
      MT5Event.sessionShutdown, MT5Event.lockReleased])

end MT5Context

/-! ### Zone records

A zone dictionary as built by `DataUpdater.load_fvg_zones` and consumed
by the monitors.  Optional fields model `dict.get`: `fvg_time` and
`timestamp` are absent (`none`) when the key is missing, and `str(None)`
is the literal string `"None"`. -/

structure Zone where
  fvg_time : Option String
  timestamp : Option String
  fvg_bottom : Option ℚ
  fvg_top : Option ℚ
  fvg_size : ℚ
  score : ℚ
  direction : Option String
deriving DecidableEq, Repr

/-- Sample zone used in concrete instantiations. -/
def zoneSampleA : Zone :=
  { fvg_time := some "2024-01-01 10:00", timestamp := none,
    fvg_bottom := some 2000, fvg_top := some 2001, fvg_size := 1,
    score := 70, direction := some "BUY" }

/-- Second sample zone, with a distinct `fvg_time`. -/
def zoneSampleB : Zone :=
  { fvg_time := some "2024-01-01 11:00", timestamp := none,
    fvg_bottom := some 2010, fvg_top := some 2012, fvg_size := 2,
    score := 65, direction := some "SELL" }

/-- Third sample zone: same `fvg_time` as `zoneSampleA` but different
bounds, size, score and direction. -/
def zoneSampleC : Zone :=
  { fvg_time := some "2024-01-01 10:00", timestamp := none,
    fvg_bottom := some 1990, fvg_top := some 1995, fvg_size := 5,
    score := 30, direction := some "SELL" }

/-! ### Zone Cache: `SharedState`

`SharedState.update_zones` rebinds `self.active_fvg_zones` to the list
reference supplied by the caller; `SharedState.get_zones` returns
`self.active_fvg_zones.copy()`, a freshly allocated list with the same
elements.  To make the copy visible, list values live in a small heap
`mem : ℕ → List Zone` with an allocation bound `next`; `activeRef` is
the reference currently held in `self.active_fvg_zones`.  Both methods
run under `self.lock`, so traces of operations are serialized. -/

structure SharedStateHeap where
  next : ℕ
  mem : ℕ → List Zone
  activeRef : ℕ

namespace SharedState

def init : SharedStateHeap :=
  { next := 1, mem := fun _ => [], activeRef := 0 }

/-- Allocate a fresh list holding `zs` (the caller building the list it
will pass to `update_zones`). -/
def allocList (st : SharedStateHeap) (zs : List Zone) : SharedStateHeap × ℕ :=
  ({ next := st.next + 1,
     mem := Function.update st.mem st.next zs,
     activeRef := st.activeRef },
   st.next)

/-- `self.active_fvg_zones = zones` — store the caller's reference. -/
def update_zones (st : SharedStateHeap) (r : ℕ) : SharedStateHeap :=
  { st with activeRef := r }

/-- `return self.active_fvg_zones.copy()` — allocate a fresh list with
the same contents and return its reference. -/
def get_zones (st : SharedStateHeap) : SharedStateHeap × ℕ :=
  ({ next := st.next + 1,
     mem := Function.update st.mem st.next (st.mem st.activeRef),
     activeRef := st.activeRef },
   st.next)

/-- Well-formedness: the internally held reference was allocated. -/
def WFHeap (st : SharedStateHeap) : Prop :=
  st.activeRef < st.next

/-- One full refresher-side replace: build a fresh list and publish it. -/
def replaceWith (st : SharedStateHeap) (zs : List Zone) : SharedStateHeap :=
  let (st1, r) := allocList st zs
  update_zones st1 r

/-- Serialized trace operations on the cache (the lock admits no
interleaving inside an operation). -/
inductive CacheOp where
  | updateOp (zs : List Zone)
  | getOp
deriving DecidableEq

/-- Run a serialized trace, collecting the contents of every snapshot at
the moment it is returned. -/
def applyOps : SharedStateHeap → List CacheOp → SharedStateHeap × List (List Zone)
  | st, [] => (st, [])
  | st, CacheOp.updateOp zs :: rest => applyOps (replaceWith st zs) rest
  | st, CacheOp.getOp :: rest =>
      let p := get_zones st
      let q := applyOps p.1 rest
      (q.1, p.1.mem p.2 :: q.2)

end SharedState

/-! ### Strategy Monitor: zone bookkeeping and the tick scan

`AccountMonitor.mark_zone_as_used` / `is_zone_used` key the used-zone
set on `str(zone.get('fvg_time', zone.get('timestamp')))`.  The tick
loop of `AdvancedStrategyMonitor.run` / `SimpleStrategyMonitor.run`
walks the zone snapshot in order, skips zones whose identifier is used,
evaluates the decision rule (`accept`), submits the order, and on a
`TRADE_RETCODE_DONE` result (`ok`) marks the zone used and breaks out of
the scan; a rejected order leaves the zone unmarked and the scan moves
on. -/

namespace AccountMonitor

/-- Identifier of a zone: `str(zone.get('fvg_time', zone.get('timestamp')))`.
`dict.get` falls back to the second lookup only when the `fvg_time` key
is absent, and `str(None)` is the literal `"None"`. -/
def zoneId (z : Zone) : String :=
  match z.fvg_time with
  | some t => t
  | none =>
      match z.timestamp with
      | some t => t
      | none => "None"

def mark_zone_as_used (used : List String) (z : Zone) : List String :=
  zoneId z :: used

def is_zone_used (used : List String) (z : Zone) : Bool :=
  decide (zoneId z ∈ used)

/-- One tick's scan over the zone snapshot.  Returns the new used-zone
set and the identifiers of the orders executed this tick (`ok z` is
`order_send` returning `TRADE_RETCODE_DONE`). -/
def tickScan (accept : Zone → Bool) (ok : Zone → Bool) :
    List String → List Zone → List String × List String
  | used, [] => (used, [])
  | used, z :: zs =>
      if is_zone_used used z then tickScan accept ok used zs
      else if accept z then
        if ok z then (mark_zone_as_used used z, [zoneId z])
        else tickScan accept ok used zs
      else tickScan accept ok used zs

/-- Any number of ticks starting from an empty used-zone set; `accept`
and `ok` may vary from tick to tick. -/
def runTicks (accept ok : ℕ → Zone → Bool) (zones : List Zone) :
    ℕ → List String × List String
  | 0 => ([], [])
  | n + 1 =>
      let p := runTicks accept ok zones n
      let q := tickScan (accept n) (ok n) p.1 zones
      (q.1, p.2 ++ q.2)

/-- Number of distinct zone identifiers of `zones` not yet in `used`. -/
def uncov (zones : List Zone) (used : List String) : ℕ :=
  ((zones.map zoneId).toFinset.filter (fun i => i ∉ used)).card

end AccountMonitor

/-! ### Order sizing: `AccountMonitor.calculate_lot_size`

`MIN_LOT_SIZE` and `MAX_LOT_SIZE` are module-level constants of
`Run_System_Dual.py`; `AccountInfoData`/`SymbolInfoData` carry the
fields of `mt5.account_info()` / `mt5.symbol_info(SYMBOL)` that the
sizing code reads. -/

def MIN_LOT_SIZE : ℚ := 1 / 100

def MAX_LOT_SIZE : ℚ := 10

structure AccountInfoData where
  balance : ℚ
deriving DecidableEq, Repr

structure SymbolInfoData where
  trade_contract_size : ℚ
deriving DecidableEq, Repr

namespace AccountMonitor

/-- Direct translation of `AccountMonitor.calculate_lot_size`.  The
`account_info`/`symbol_info` arguments are the possibly-unavailable
`mt5.account_info()` / `mt5.symbol_info(SYMBOL)` results; a zero
denominator raises `ZeroDivisionError` in Python, which the bare
`except:` turns into the minimum lot. -/
def calculate_lot_size (account_info : Option AccountInfoData)
    (symbol_info : Option SymbolInfoData) (risk_percentage : ℚ)
    (sl_distance_points : ℚ) : ℚ :=
  match account_info, symbol_info with
  | some ai, some si =>
      let balance := ai.balance
      let risk_amount := balance * (risk_percentage / 100)
      let pip_value_per_lot := si.trade_contract_size * (1 / 100)
      let sl_distance_pips := sl_distance_points / 10
      if sl_distance_pips ≤ 0 then MIN_LOT_SIZE
      else if pip_value_per_lot * sl_distance_pips = 0 then MIN_LOT_SIZE
      else
        let lot_size := risk_amount / (pip_value_per_lot * sl_distance_pips)
        let clamped := max MIN_LOT_SIZE (min MAX_LOT_SIZE lot_size)
        ((⌊clamped * 100⌋ : ℤ) : ℚ) / 100
  | _, _ => MIN_LOT_SIZE

end AccountMonitor

/-- Modelled from the spec: the order-sizing formula of §4.4,
`floor-to-hundredths(clamp(riskAmount / (pointValue × stopDistanceInPips),
minLot, maxLot))`, used to compare `calculate_lot_size` against the
spec's words. -/
def lotSizeSpec (riskAmount pointValuePerPip stopDistancePips : ℚ) : ℚ :=
  ((⌊(max MIN_LOT_SIZE
        (min MAX_LOT_SIZE
          (riskAmount / (pointValuePerPip * stopDistancePips)))) * 100⌋ : ℤ) : ℚ) / 100

/-! ### Trade Reconciler: `TradeMonitor._check_trades_for_account`

A trade row as persisted in the ledger, the broker's answer for one
ticket in one reconciliation round (`mt5.positions_get(ticket=...)` and
`mt5.history_deals_get(position=...)`), and the per-trade step the
reconciler performs.  `check_open_trades` selects only rows whose
`TradeStatus` is `'Open'`, so `stepTrade` freezes any other row. -/

inductive Status where
  | Open
  | Winning
  | Losing
  | Closed
deriving DecidableEq, Repr

structure TradeRow where
  TradeID : ℕ
  AccountID : ℕ
  TradeStatus : Status
  TradeProfitLose : Option ℚ
  TradeClosePrice : Option ℚ
  TradeCloseTime : Option ℕ
deriving DecidableEq, Repr

structure Deal where
  profit : ℚ
  swap : ℚ
  commission : ℚ
  price : ℚ
  time : ℕ
deriving DecidableEq, Repr

structure BrokerView where
  positions : List ℚ
  deals : List Deal
deriving DecidableEq, Repr

structure ReconcileResult where
  row : TradeRow
  delta : ℚ
  adjusted : Bool
  warned : Bool
deriving DecidableEq, Repr

namespace TradeMonitor

/-- Body of the per-trade loop of `_check_trades_for_account`: refresh
the floating profit if the position is still live; otherwise settle from
historical deals (summing profit + swap + commission, closing fields
from the last deal, `Winning` iff the total is ≥ 0) and add the realized
total to the account balance; otherwise mark `Closed` with a warning and
no balance change. -/
def _check_trade (t : TradeRow) (v : BrokerView) : ReconcileResult :=
  match v.positions with
  | p :: _ => { row := { t with TradeProfitLose := some p }, delta := 0,
                adjusted := false, warned := false }
  | [] =>
      match v.deals with
      | [] => { row := { t with TradeStatus := Status.Closed }, delta := 0,
                adjusted := false, warned := true }
      | d :: ds =>
          let total := ((d :: ds).map (fun e => e.profit + e.swap + e.commission)).sum
          let last := (d :: ds).getLast (List.cons_ne_nil d ds)
          { row := { t with
              TradeStatus := if 0 ≤ total then Status.Winning else Status.Losing,
              TradeProfitLose := some total,
              TradeClosePrice := some last.price,
              TradeCloseTime := some last.time },
            delta := total, adjusted := true, warned := false }

/-- One reconciliation step for one ledger row: the DB query
`filter(Trade.TradeStatus == 'Open')` means a non-`Open` row is never
handed to `_check_trade`. -/
def stepTrade (t : TradeRow) (v : BrokerView) : ReconcileResult :=
  if t.TradeStatus = Status.Open then _check_trade t v
  else { row := t, delta := 0, adjusted := false, warned := false }

/-- A sequence of reconciliation rounds applied to one ledger row,
counting how many times the balance-adjustment statement ran. -/
def runTrade : TradeRow → List BrokerView → TradeRow × ℕ
  | t, [] => (t, 0)
  | t, v :: vs =>
      let r := stepTrade t v
      let rest := runTrade r.row vs
      (rest.1, (if r.adjusted then 1 else 0) + rest.2)

/-- Indicator of a status that carries a realized balance effect. -/
def resolvedInd (s : Status) : ℕ :=
  if s = Status.Winning ∨ s = Status.Losing then 1 else 0

end TradeMonitor

/-! ### Zone Refresher: `DataUpdater`

`load_fvg_zones` reads the FVG CSV (`none` models a missing or
unreadable file, which the Python code answers with `[]`), keeps the
last ten rows, scores each row with the classifier when one is loaded
(default score 50), and builds zone dictionaries.  `updaterCycle` is one
iteration of `DataUpdater.run`'s while-loop: it performs the
session-gated `run_fvg_analysis` (whose outcome it never inspects), then
unconditionally loads zones from the CSV and publishes them with
`update_zones`. -/

structure FvgRow where
  time_created : String
  fvg_bottom : ℚ
  fvg_top : ℚ
  fvg_size : ℚ
  FVG_Type : String
deriving DecidableEq, Repr

namespace DataUpdater

def load_fvg_zones (csv : Option (List FvgRow)) (scoreFn : Option (FvgRow → ℚ)) :
    List Zone :=
  match csv with
  | none => []
  | some rows =>
      if rows.length = 0 then []
      else
        (rows.drop (rows.length - 10)).map (fun row =>
          { fvg_time := some row.time_created,
            timestamp := none,
            fvg_bottom := some row.fvg_bottom,
            fvg_top := some row.fvg_top,
            fvg_size := row.fvg_size,
            score := match scoreFn with | some f => f row | none => 50,
            direction := some (if row.FVG_Type = "Bullish" then "BUY" else "SELL") })

/-- One iteration of `DataUpdater.run`: execute the session-gated FVG
analysis (`none` = the session could not even be opened, `some false` =
the analysis reported failure, `some true` = success), then load zones
from the CSV and replace the cache with them.  The analysis outcome is
not consulted. -/
def updaterCycle (_analysisOutcome : Option Bool) (csv : Option (List FvgRow))
    (scoreFn : Option (FvgRow → ℚ)) (_cache : List Zone) : List Zone :=
  load_fvg_zones csv scoreFn

end DataUpdater

/-! ## Theorems -/

/-! ### Session Gate mutual exclusion (C1) -/

theorem gateInv_init : GateInv initGate := by
  intro t h
  simp [initGate] at h

theorem gateInv_step {s s' : GateState} (hs : GateInv s) (hstep : GateStep s s') :
    GateInv s' := by
  cases hstep with
  | acquire t s hFree hPh =>
      intro u hu
      by_cases hut : u = t
      · simp [hut]
      · simp only [Function.update_noteq hut] at hu
        exact absurd (hs u hu) (by simp [hFree])
  | initOk t s hOwn hPh =>
      intro u hu
      by_cases hut : u = t
      · simpa [hut] using hOwn
      · simp only [Function.update_noteq hut] at hu
        exact hs u hu
  | shutdownSession t s hOwn hPh =>
      intro u hu
      by_cases hut : u = t
      · simpa [hut] using hOwn
      · simp only [Function.update_noteq hut] at hu
        exact hs u hu
  | release t s hOwn hPh =>
      intro u hu
      by_cases hut : u = t
      · subst hut; simp at hu
      · simp only [Function.update_noteq hut] at hu
        have := hs u hu
        rw [hOwn] at this
        exact absurd (Option.some.inj this).symm hut

theorem gateInv_reachable {s : GateState} (h : GateReachable s) : GateInv s := by
  induction h with
  | init => exact gateInv_init
  | step _ hstep ih => exact gateInv_step ih hstep

/-- C1: mutual exclusion — in every reachable state of the Session Gate,
at most one thread has an open broker session: a session is opened only
after the process-wide lock is acquired and is shut down (the `finally`
block) before the lock is released, so no two sessions are ever open
concurrently. -/
theorem sessionGate_at_most_one_open {s : GateState} (h : GateReachable s)
    (t₁ t₂ : ℕ) (h₁ : s.phase t₁ = Phase.sessionOpen) (h₂ : s.phase t₂ = Phase.sessionOpen) :
    t₁ = t₂ := by
  have inv := gateInv_reachable h
  have o₁ := inv t₁ (by simp [h₁])
  have o₂ := inv t₂ (by simp [h₂])
  rw [o₁] at o₂
  exact Option.some.inj o₂

/-- Concrete reachable state with thread 0 holding an open session,
instantiating `sessionGate_at_most_one_open`. -/
theorem sessionGate_at_most_one_open_witness :
    GateReachable { lockOwner := some 0,
                    phase := Function.update (Function.update (initGate.phase) 0 Phase.locked)
                               0 Phase.sessionOpen } ∧ (0 : ℕ) = 0 := by
  have h1 : GateStep initGate
      { lockOwner := some 0, phase := Function.update initGate.phase 0 Phase.locked } :=
    GateStep.acquire 0 initGate rfl rfl
  have h2 : GateStep
      { lockOwner := some 0, phase := Function.update initGate.phase 0 Phase.locked }
      { lockOwner := some 0,
        phase := Function.update (Function.update initGate.phase 0 Phase.locked)
                   0 Phase.sessionOpen } :=
    GateStep.initOk 0 _ rfl (by simp)
  have hr : GateReachable
      { lockOwner := some 0,
        phase := Function.update (Function.update initGate.phase 0 Phase.locked)
                   0 Phase.sessionOpen } :=
    GateReachable.step (GateReachable.step GateReachable.init h1) h2
  exact ⟨hr, sessionGate_at_most_one_open hr 0 0 (by simp) (by simp)⟩

/-! ### Session Gate error handling (C8) -/

/-- C8: error-handling of `MT5Context.execute` — when `mt5.initialize`
fails the work function is not invoked and the result is `None`; on
every path the trace ends with the session shutdown immediately followed
by the lock release (the `finally` block runs inside `with self.lock`);
and an exception inside the work function yields `None` rather than
propagating. -/
theorem mt5_execute_error_handling {α : Type} (initSucceeds : Bool)
    (funcOutcome : Except String α) :
    (initSucceeds = false →
      (MT5Context.execute initSucceeds funcOutcome).1 = none ∧
      MT5Event.funcInvoked ∉ (MT5Context.execute initSucceeds funcOutcome).2) ∧
    (∃ pre : List MT5Event,
      (MT5Context.execute initSucceeds funcOutcome).2 =
        pre ++ [MT5Event.sessionShutdown, MT5Event.lockReleased]) ∧
    (∀ e : String, funcOutcome = Except.error e →
      (MT5Context.execute initSucceeds funcOutcome).1 = none) := by
  refine ⟨?_, ?_, ?_⟩
  · intro hInit
    subst hInit
    simp [MT5Context.execute]
  · cases initSucceeds with
    | false =>
        exact ⟨[MT5Event.lockAcquired, MT5Event.initAttempt, MT5Event.initFailure], rfl⟩
    | true =>
        cases funcOutcome with
        | ok a => exact ⟨[MT5Event.lockAcquired, MT5Event.initAttempt, MT5Event.funcInvoked], rfl⟩
        | error e => exact ⟨[MT5Event.lockAcquired, MT5Event.initAttempt, MT5Event.funcInvoked], rfl⟩
  · intro e he
    subst he
    cases initSucceeds <;> simp [MT5Context.execute]

/-- Instantiation of `mt5_execute_error_handling` at a failed
initialization and at a work function raising an exception. -/
theorem mt5_execute_error_handling_witness :
    ((MT5Context.execute (α := ℕ) false (Except.ok 7)).1 = none ∧
      MT5Event.funcInvoked ∉ (MT5Context.execute (α := ℕ) false (Except.ok 7)).2) ∧
    (MT5Context.execute (α := ℕ) true (Except.error "boom")).1 = none := by
  refine ⟨(mt5_execute_error_handling false (Except.ok 7)).1 rfl, ?_⟩
  exact (mt5_execute_error_handling true (Except.error "boom")).2.2 "boom" rfl

/-! ### Zone Cache lemmas and contract (C3) -/

namespace SharedState

theorem wf_replaceWith {st : SharedStateHeap} (_h : WFHeap st) (zs : List Zone) :
    WFHeap (replaceWith st zs) := by
  simp [WFHeap, replaceWith, allocList, update_zones]

theorem wf_get_zones {st : SharedStateHeap} (h : WFHeap st) :
    WFHeap (get_zones st).1 := by
  simp only [WFHeap, get_zones] at h ⊢
  omega

theorem mem_replaceWith_active {st : SharedStateHeap} (zs : List Zone) :
    (replaceWith st zs).mem (replaceWith st zs).activeRef = zs := by
  simp [replaceWith, allocList, update_zones]

theorem mem_get_zones_active {st : SharedStateHeap} (h : WFHeap st) :
    (get_zones st).1.mem (get_zones st).1.activeRef = st.mem st.activeRef := by
  have hne : st.activeRef ≠ st.next := Nat.ne_of_lt h
  simp [get_zones, Function.update_noteq hne]

theorem mem_get_zones_ret {st : SharedStateHeap} :
    (get_zones st).1.mem (get_zones st).2 = st.mem st.activeRef := by
  simp [get_zones]

theorem next_mono_replaceWith (st : SharedStateHeap) (zs : List Zone) :
    st.next ≤ (replaceWith st zs).next := by
  simp [replaceWith, allocList, update_zones]

theorem mem_lt_replaceWith {st : SharedStateHeap} {r : ℕ} (h : r < st.next) (zs : List Zone) :
    (replaceWith st zs).mem r = st.mem r := by
  have hne : r ≠ st.next := Nat.ne_of_lt h
  simp [replaceWith, allocList, update_zones, Function.update_noteq hne]

theorem mem_lt_get_zones {st : SharedStateHeap} {r : ℕ} (h : r < st.next) :
    (get_zones st).1.mem r = st.mem r := by
  have hne : r ≠ st.next := Nat.ne_of_lt h
  simp [get_zones, Function.update_noteq hne]

/-- Old references survive a whole serialized trace untouched: neither
`update_zones` (a pointer swap) nor `get_zones` (a fresh copy) writes
into an already-allocated list. -/
theorem applyOps_mem_stable {r : ℕ} :
    ∀ (ops : List CacheOp) (st : SharedStateHeap), r < st.next →
      (applyOps st ops).1.mem r = st.mem r ∧ st.next ≤ (applyOps st ops).1.next
  | [], st, _ => ⟨rfl, le_refl _⟩
  | CacheOp.updateOp zs :: rest, st, hr => by
      have hr1 : r < (replaceWith st zs).next :=
        lt_of_lt_of_le hr (next_mono_replaceWith st zs)
      have ih := applyOps_mem_stable rest (replaceWith st zs) hr1
      refine ⟨?_, ?_⟩
      · simpa [applyOps, mem_lt_replaceWith hr zs] using ih.1
      · calc st.next ≤ (replaceWith st zs).next := next_mono_replaceWith st zs
          _ ≤ (applyOps (replaceWith st zs) rest).1.next := ih.2
  | CacheOp.getOp :: rest, st, hr => by
      have hmono : st.next ≤ (get_zones st).1.next := by simp [get_zones]
      have hr1 : r < (get_zones st).1.next := lt_of_lt_of_le hr hmono
      have ih := applyOps_mem_stable rest (get_zones st).1 hr1
      refine ⟨?_, ?_⟩
      · simpa [applyOps, mem_lt_get_zones hr] using ih.1
      · calc st.next ≤ (get_zones st).1.next := hmono
          _ ≤ (applyOps (get_zones st).1 rest).1.next := ih.2

/-- Every snapshot taken during a serialized trace is a whole list:
either the list current when the trace began or the exact argument of
one of the trace's updates — never a mix. -/
theorem applyOps_snapshots_whole :
    ∀ (ops : List CacheOp) (st : SharedStateHeap), WFHeap st →
      ∀ out ∈ (applyOps st ops).2,
        out = st.mem st.activeRef ∨ ∃ zs, CacheOp.updateOp zs ∈ ops ∧ out = zs
  | [], st, _, out, hout => by simp [applyOps] at hout
  | CacheOp.updateOp zs :: rest, st, hwf, out, hout => by
      simp only [applyOps] at hout
      have ih := applyOps_snapshots_whole rest (replaceWith st zs) (wf_replaceWith hwf zs) out hout
      rcases ih with h | ⟨zs', hmem, hout'⟩
      · right
        exact ⟨zs, by simp, by simpa [mem_replaceWith_active] using h⟩
      · right
        exact ⟨zs', by simp [hmem], hout'⟩
  | CacheOp.getOp :: rest, st, hwf, out, hout => by
      simp only [applyOps, List.mem_cons] at hout
      rcases hout with hout | hout
      · left
        simpa [mem_get_zones_ret] using hout
      · have ih := applyOps_snapshots_whole rest (get_zones st).1 (wf_get_zones hwf) out hout
        rcases ih with h | ⟨zs', hmem, hout'⟩
        · left
          simpa [mem_get_zones_active hwf] using h
        · right
          exact ⟨zs', by simp [hmem], hout'⟩

end SharedState

/-- C3: Zone Cache contract — replacing the cache with `zs` and then
taking a snapshot yields exactly `zs` through a reference distinct from
the cache's internal one; a held snapshot's contents are never changed
by any later serialized trace of replaces and snapshots; and every
snapshot taken during a serialized trace (the lock serializes them) is
entirely the initial list or entirely the argument of some replace in
the trace, never a mix. -/
theorem sharedState_cache_contract :
    (∀ (st : SharedStateHeap) (zs : List Zone),
      (SharedState.get_zones (SharedState.replaceWith st zs)).1.mem
          (SharedState.get_zones (SharedState.replaceWith st zs)).2 = zs ∧
      (SharedState.get_zones (SharedState.replaceWith st zs)).2 ≠
        (SharedState.get_zones (SharedState.replaceWith st zs)).1.activeRef) ∧
    (∀ (ops : List SharedState.CacheOp) (st : SharedStateHeap) (r : ℕ), r < st.next →
      (SharedState.applyOps st ops).1.mem r = st.mem r) ∧
    (∀ (ops : List SharedState.CacheOp) (st : SharedStateHeap), SharedState.WFHeap st →
      ∀ out ∈ (SharedState.applyOps st ops).2,
        out = st.mem st.activeRef ∨ ∃ zs, SharedState.CacheOp.updateOp zs ∈ ops ∧ out = zs) := by
  refine ⟨?_, ?_, ?_⟩
  · intro st zs
    constructor
    · rw [SharedState.mem_get_zones_ret, SharedState.mem_replaceWith_active]
    · simp [SharedState.replaceWith, SharedState.allocList, SharedState.update_zones,
        SharedState.get_zones]
  · intro ops st r hr
    exact (SharedState.applyOps_mem_stable ops st hr).1
  · exact SharedState.applyOps_snapshots_whole

/-- Instantiation of `sharedState_cache_contract` on a concrete one-zone
replace followed by a snapshot, starting from the initial cache. -/
theorem sharedState_cache_contract_witness :
    ∀ z : Zone,
      (SharedState.get_zones (SharedState.replaceWith SharedState.init [z])).1.mem
          (SharedState.get_zones (SharedState.replaceWith SharedState.init [z])).2 = [z] ∧
      (SharedState.applyOps SharedState.init
          [SharedState.CacheOp.updateOp [], SharedState.CacheOp.getOp]).1.mem 0 =
        SharedState.init.mem 0 := by
  intro z
  refine ⟨(sharedState_cache_contract.1 SharedState.init [z]).1, ?_⟩
  exact sharedState_cache_contract.2.1
    [SharedState.CacheOp.updateOp [], SharedState.CacheOp.getOp]
    SharedState.init 0 (by simp [SharedState.init])

/-! ### Strategy Monitor lemmas (C2, C10) -/

namespace AccountMonitor

theorem tickScan_used_eq (accept ok : Zone → Bool) :
    ∀ (zones : List Zone) (used : List String),
      (tickScan accept ok used zones).1 = (tickScan accept ok used zones).2 ++ used
  | [], used => rfl
  | z :: zs, used => by
      by_cases hu : is_zone_used used z
      · simpa [tickScan, hu] using tickScan_used_eq accept ok zs used
      · by_cases ha : accept z
        · by_cases hk : ok z
          · simp [tickScan, hu, ha, hk, mark_zone_as_used]
          · simpa [tickScan, hu, ha, hk] using tickScan_used_eq accept ok zs used
        · simpa [tickScan, hu, ha] using tickScan_used_eq accept ok zs used

theorem tickScan_subs_not_used (accept ok : Zone → Bool) :
    ∀ (zones : List Zone) (used : List String),
      ∀ i ∈ (tickScan accept ok used zones).2, i ∉ used
  | [], used => by simp [tickScan]
  | z :: zs, used => by
      by_cases hu : is_zone_used used z
      · simpa [tickScan, hu] using tickScan_subs_not_used accept ok zs used
      · by_cases ha : accept z
        · by_cases hk : ok z
          · intro i hi
            simp [tickScan, hu, ha, hk] at hi
            subst hi
            simpa [is_zone_used] using hu
          · simpa [tickScan, hu, ha, hk] using tickScan_subs_not_used accept ok zs used
        · simpa [tickScan, hu, ha] using tickScan_subs_not_used accept ok zs used

theorem tickScan_subs_short (accept ok : Zone → Bool) :
    ∀ (zones : List Zone) (used : List String),
      (tickScan accept ok used zones).2 = [] ∨
      ∃ i, (tickScan accept ok used zones).2 = [i]
  | [], used => Or.inl rfl
  | z :: zs, used => by
      by_cases hu : is_zone_used used z
      · simpa [tickScan, hu] using tickScan_subs_short accept ok zs used
      · by_cases ha : accept z
        · by_cases hk : ok z
          · exact Or.inr ⟨zoneId z, by simp [tickScan, hu, ha, hk]⟩
          · simpa [tickScan, hu, ha, hk] using tickScan_subs_short accept ok zs used
        · simpa [tickScan, hu, ha] using tickScan_subs_short accept ok zs used

/-- Across a run: executed-order identifiers are exactly the used-zone
set, and no identifier is executed twice. -/
theorem runTicks_nodup_and_used (accept ok : ℕ → Zone → Bool) (zones : List Zone) :
    ∀ n : ℕ,
      (runTicks accept ok zones n).2.Nodup ∧
      ∀ i, i ∈ (runTicks accept ok zones n).1 ↔ i ∈ (runTicks accept ok zones n).2
  | 0 => by simp [runTicks]
  | n + 1 => by
      obtain ⟨hnd, hiff⟩ := runTicks_nodup_and_used accept ok zones n
      set p := runTicks accept ok zones n with hp
      have husedEq := tickScan_used_eq (accept n) (ok n) zones p.1
      have hnotused := tickScan_subs_not_used (accept n) (ok n) zones p.1
      have hshort := tickScan_subs_short (accept n) (ok n) zones p.1
      constructor
      · rcases hshort with h0 | ⟨i, hi⟩
        · simpa [runTicks, ← hp, h0] using hnd
        · have hinew : i ∉ p.2 := fun hmem =>
            hnotused i (by simp [hi]) ((hiff i).2 hmem)
          simp only [runTicks, ← hp, hi]
          exact List.Nodup.append hnd (by simp) (by
            intro a ha hb
            simp at hb
            subst hb
            exact hinew ha)
      · intro i
        simp only [runTicks, ← hp, husedEq, List.mem_append]
        constructor
        · rintro (h | h)
          · exact Or.inr h
          · exact Or.inl ((hiff i).1 h)
        · rintro (h | h)
          · exact Or.inr ((hiff i).2 h)
          · exact Or.inl h

theorem runTicks_count_le_one (accept ok : ℕ → Zone → Bool) (zones : List Zone)
    (n : ℕ) (i : String) : (runTicks accept ok zones n).2.count i ≤ 1 :=
  List.nodup_iff_count_le_one.1 (runTicks_nodup_and_used accept ok zones n).1 i

/-- With an always-accepting rule and always-successful orders, a tick
either finds every zone identifier already used and changes nothing, or
marks exactly the first unused identifier with one executed order. -/
theorem tickScan_always :
    ∀ (zones : List Zone) (used : List String),
      ((∀ z ∈ zones, zoneId z ∈ used) ∧
        tickScan (fun _ => true) (fun _ => true) used zones = (used, [])) ∨
      (∃ z, z ∈ zones ∧ zoneId z ∉ used ∧
        tickScan (fun _ => true) (fun _ => true) used zones = (zoneId z :: used, [zoneId z]))
  | [], used => Or.inl (by simp [tickScan])
  | z :: zs, used => by
      by_cases hu : zoneId z ∈ used
      · have hud : is_zone_used used z = true := by simpa [is_zone_used] using hu
        rcases tickScan_always zs used with ⟨hall, heq⟩ | ⟨z', hz', hnu, heq⟩
        · left
          refine ⟨?_, by simpa [tickScan, hud] using heq⟩
          intro w hw
          rcases List.mem_cons.1 hw with rfl | hw
          · exact hu
          · exact hall w hw
        · right
          exact ⟨z', List.mem_cons_of_mem _ hz', hnu, by simpa [tickScan, hud] using heq⟩
      · have hud : is_zone_used used z = false := by simpa [is_zone_used] using hu
        right
        exact ⟨z, List.mem_cons_self z zs, hu, by simp [tickScan, hud, mark_zone_as_used]⟩

theorem uncov_eq_zero_iff (zones : List Zone) (used : List String) :
    uncov zones used = 0 ↔ ∀ z ∈ zones, zoneId z ∈ used := by
  unfold uncov
  rw [Finset.card_eq_zero, Finset.filter_eq_empty_iff]
  constructor
  · intro h z hz
    have hmem : zoneId z ∈ (zones.map zoneId).toFinset := by
      rw [List.mem_toFinset, List.mem_map]
      exact ⟨z, hz, rfl⟩
    simpa using h hmem
  · intro h i hi
    rw [List.mem_toFinset, List.mem_map] at hi
    obtain ⟨z, hz, rfl⟩ := hi
    simpa using h z hz

theorem uncov_insert {zones : List Zone} {used : List String} {z : Zone}
    (hz : z ∈ zones) (hnu : zoneId z ∉ used) :
    uncov zones (zoneId z :: used) + 1 = uncov zones used := by
  unfold uncov
  have hfilter :
      (zones.map zoneId).toFinset.filter (fun i => i ∉ zoneId z :: used) =
        ((zones.map zoneId).toFinset.filter (fun i => i ∉ used)).erase (zoneId z) := by
    ext i
    simp only [Finset.mem_filter, Finset.mem_erase, List.mem_cons, not_or]
    tauto
  have hmem : zoneId z ∈ (zones.map zoneId).toFinset.filter (fun i => i ∉ used) := by
    rw [Finset.mem_filter]
    refine ⟨?_, by simpa using hnu⟩
    rw [List.mem_toFinset, List.mem_map]
    exact ⟨z, hz, rfl⟩
  rw [hfilter, Finset.card_erase_of_mem hmem]
  have hpos : 0 < ((zones.map zoneId).toFinset.filter (fun i => i ∉ used)).card :=
    Finset.card_pos.2 ⟨_, hmem⟩
  omega

theorem uncov_nil_le (zones : List Zone) : uncov zones [] ≤ zones.length := by
  unfold uncov
  calc ((zones.map zoneId).toFinset.filter (fun i => i ∉ ([] : List String))).card
      ≤ (zones.map zoneId).toFinset.card := Finset.card_filter_le _ _
    _ ≤ (zones.map zoneId).length := (zones.map zoneId).toFinset_card_le
    _ = zones.length := List.length_map _ _

theorem runTicks_always_uncov (zones : List Zone) :
    ∀ n : ℕ,
      uncov zones (runTicks (fun _ _ => true) (fun _ _ => true) zones n).1 = 0 ∨
      uncov zones (runTicks (fun _ _ => true) (fun _ _ => true) zones n).1 + n ≤
        uncov zones []
  | 0 => Or.inr (by simp [runTicks])
  | n + 1 => by
      set p := runTicks (fun _ _ => true) (fun _ _ => true) zones n with hp
      have hstep : (runTicks (fun _ _ => true) (fun _ _ => true) zones (n + 1)).1 =
          (tickScan (fun _ => true) (fun _ => true) p.1 zones).1 := by
        simp [runTicks, ← hp]
      rcases tickScan_always zones p.1 with ⟨hall, heq⟩ | ⟨z, hz, hnu, heq⟩
      · left
        rw [hstep, heq]
        exact (uncov_eq_zero_iff zones p.1).2 hall
      · have hins := uncov_insert hz hnu
        rcases runTicks_always_uncov zones n with h0 | hle
        · exact absurd ((uncov_eq_zero_iff zones p.1).1 h0 z hz) hnu
        · right
          rw [hstep, heq]
          show uncov zones (zoneId z :: p.1) + (n + 1) ≤ uncov zones []
          simp only [← hp] at hle
          omega

theorem runTicks_always_covers (zones : List Zone) (n : ℕ) (hn : zones.length ≤ n) :
    ∀ z ∈ zones, zoneId z ∈ (runTicks (fun _ _ => true) (fun _ _ => true) zones n).1 := by
  rcases runTicks_always_uncov zones n with h0 | hle
  · exact (uncov_eq_zero_iff _ _).1 h0
  · have h0 : uncov zones (runTicks (fun _ _ => true) (fun _ _ => true) zones n).1 = 0 := by
      have := uncov_nil_le zones
      omega
    exact (uncov_eq_zero_iff _ _).1 h0

theorem runTicks_always_count_one (zones : List Zone) (n : ℕ) (hn : zones.length ≤ n)
    (z : Zone) (hz : z ∈ zones) :
    (runTicks (fun _ _ => true) (fun _ _ => true) zones n).2.count (zoneId z) = 1 := by
  have hmem := runTicks_always_covers zones n hn z hz
  obtain ⟨hnd, hiff⟩ :=
    runTicks_nodup_and_used (fun _ _ => true) (fun _ _ => true) zones n
  have hmem2 := (hiff (zoneId z)).1 hmem
  have hle := runTicks_count_le_one (fun _ _ => true) (fun _ _ => true) zones n (zoneId z)
  have hpos : 0 < (runTicks (fun _ _ => true) (fun _ _ => true) zones n).2.count (zoneId z) :=
    List.count_pos_iff.2 hmem2
  omega

end AccountMonitor

/-! ### Monitor claim theorems (C2, C10) -/

/-- C2: per-zone idempotence of a Strategy Monitor instance — in any run
no zone identifier ever has two executed orders; within a tick the
identifiers added to `used_zones` are exactly those whose `order_send`
returned `TRADE_RETCODE_DONE`; and with a fixed zone list, an
always-accepting decision rule and always-successful orders, after at
least as many ticks as there are zones every zone identifier in the list
has exactly one executed order. -/
theorem monitor_one_order_per_zone_id :
    (∀ (accept ok : ℕ → Zone → Bool) (zones : List Zone) (n : ℕ) (i : String),
      (AccountMonitor.runTicks accept ok zones n).2.count i ≤ 1) ∧
    (∀ (accept ok : Zone → Bool) (used : List String) (zones : List Zone),
      (AccountMonitor.tickScan accept ok used zones).1 =
        (AccountMonitor.tickScan accept ok used zones).2 ++ used) ∧
    (∀ (zones : List Zone) (n : ℕ), zones.length ≤ n →
      ∀ z ∈ zones,
        (AccountMonitor.runTicks (fun _ _ => true) (fun _ _ => true) zones n).2.count
          (AccountMonitor.zoneId z) = 1) :=
  ⟨fun accept ok zones n i => AccountMonitor.runTicks_count_le_one accept ok zones n i,
   fun accept ok used zones => AccountMonitor.tickScan_used_eq accept ok zones used,
   fun zones n hn z hz => AccountMonitor.runTicks_always_count_one zones n hn z hz⟩

/-- Instantiation of `monitor_one_order_per_zone_id` on a two-zone list
with two always-accepting, always-successful ticks. -/
theorem monitor_one_order_per_zone_id_witness :
    ([zoneSampleA, zoneSampleB].length ≤ 2) ∧
    (AccountMonitor.runTicks (fun _ _ => true) (fun _ _ => true) [zoneSampleA, zoneSampleB] 2).2.count
      (AccountMonitor.zoneId zoneSampleA) = 1 :=
  ⟨by simp,
   monitor_one_order_per_zone_id.2.2 [zoneSampleA, zoneSampleB] 2 (by simp)
     zoneSampleA (List.mem_cons_self _ _)⟩

/-- C10: a zone's identity in the used-zone set is only
`str(zone.get('fvg_time', zone.get('timestamp')))` — zones sharing an
`fvg_time` value share one used-zone entry, zones lacking both fields
collapse to the entry `"None"`, marking one such zone makes
`is_zone_used` true for all of them, and a zone whose identifier is used
yields no order in a tick scan, whatever its bounds, size, score or
direction. -/
theorem zone_identity_is_fvg_time_string :
    (∀ (z₁ z₂ : Zone) (t : String),
      z₁.fvg_time = some t → z₂.fvg_time = some t →
      AccountMonitor.zoneId z₁ = AccountMonitor.zoneId z₂) ∧
    (∀ z : Zone, z.fvg_time = none → z.timestamp = none →
      AccountMonitor.zoneId z = "None") ∧
    (∀ (z₁ z₂ : Zone) (used : List String),
      AccountMonitor.zoneId z₁ = AccountMonitor.zoneId z₂ →
      AccountMonitor.is_zone_used (AccountMonitor.mark_zone_as_used used z₁) z₂ = true) ∧
    (∀ (accept ok : Zone → Bool) (used : List String) (zones : List Zone) (z : Zone),
      AccountMonitor.is_zone_used used z = true →
      AccountMonitor.zoneId z ∉ (AccountMonitor.tickScan accept ok used zones).2) := by
  refine ⟨?_, ?_, ?_, ?_⟩
  · intro z₁ z₂ t h₁ h₂
    simp [AccountMonitor.zoneId, h₁, h₂]
  · intro z h₁ h₂
    simp [AccountMonitor.zoneId, h₁, h₂]
  · intro z₁ z₂ used heq
    simp [AccountMonitor.is_zone_used, AccountMonitor.mark_zone_as_used, heq]
  · intro accept ok used zones z hused hmem
    have hnot := AccountMonitor.tickScan_subs_not_used accept ok zones used
      (AccountMonitor.zoneId z) hmem
    exact hnot (by simpa [AccountMonitor.is_zone_used] using hused)

/-- Instantiation of `zone_identity_is_fvg_time_string`: `zoneSampleA`
and `zoneSampleC` differ in bounds, size, score and direction but share
`fvg_time`, so marking one suppresses the other everywhere. -/
theorem zone_identity_is_fvg_time_string_witness :
    AccountMonitor.zoneId zoneSampleA = AccountMonitor.zoneId zoneSampleC ∧
    AccountMonitor.is_zone_used
      (AccountMonitor.mark_zone_as_used [] zoneSampleA) zoneSampleC = true ∧
    AccountMonitor.zoneId zoneSampleC ∉
      (AccountMonitor.tickScan (fun _ => true) (fun _ => true)
        (AccountMonitor.mark_zone_as_used [] zoneSampleA) [zoneSampleC]).2 := by
  have hid : AccountMonitor.zoneId zoneSampleA = AccountMonitor.zoneId zoneSampleC := rfl
  have hmarked := zone_identity_is_fvg_time_string.2.2.1 zoneSampleA zoneSampleC [] hid
  exact ⟨hid, hmarked,
    zone_identity_is_fvg_time_string.2.2.2 (fun _ => true) (fun _ => true)
      (AccountMonitor.mark_zone_as_used [] zoneSampleA) [zoneSampleC] zoneSampleC hmarked⟩

/-! ### Order sizing (C5, C6) -/

/-- C5: `calculate_lot_size` computes the spec's
floor-to-hundredths(clamp(riskAmount / (pointValue × stopDistanceInPips),
minLot, maxLot)) with riskAmount = balance × riskPercentage/100; for all
inputs the result lies in [minLot, maxLot] and is an integer multiple of
0.01; and missing account info, missing symbol info, or a non-positive
stop distance all yield the minimum lot. -/
theorem calculate_lot_size_correct :
    (∀ (ai : AccountInfoData) (si : SymbolInfoData) (rp points : ℚ),
      0 < points / 10 →
      AccountMonitor.calculate_lot_size (some ai) (some si) rp points =
        lotSizeSpec (ai.balance * (rp / 100)) (si.trade_contract_size * (1 / 100))
          (points / 10)) ∧
    (∀ (account_info : Option AccountInfoData) (symbol_info : Option SymbolInfoData)
        (rp points : ℚ),
      MIN_LOT_SIZE ≤
          AccountMonitor.calculate_lot_size account_info symbol_info rp points ∧
      AccountMonitor.calculate_lot_size account_info symbol_info rp points ≤
          MAX_LOT_SIZE ∧
      ∃ k : ℤ,
        AccountMonitor.calculate_lot_size account_info symbol_info rp points = (k : ℚ) / 100) ∧
    (∀ (symbol_info : Option SymbolInfoData) (rp points : ℚ),
      AccountMonitor.calculate_lot_size none symbol_info rp points =
        MIN_LOT_SIZE) ∧
    (∀ (account_info : Option AccountInfoData) (rp points : ℚ),
      AccountMonitor.calculate_lot_size account_info none rp points =
        MIN_LOT_SIZE) ∧
    (∀ (ai : AccountInfoData) (si : SymbolInfoData) (rp points : ℚ),
      points / 10 ≤ 0 →
      AccountMonitor.calculate_lot_size (some ai) (some si) rp points =
        MIN_LOT_SIZE) := by
  have hminmax : MIN_LOT_SIZE ≤ MAX_LOT_SIZE := by
    norm_num [MIN_LOT_SIZE, MAX_LOT_SIZE]
  have hboundsMain : ∀ lot : ℚ,
      MIN_LOT_SIZE ≤
        ((⌊(max MIN_LOT_SIZE (min MAX_LOT_SIZE lot)) * 100⌋ : ℤ) : ℚ) / 100 ∧
      ((⌊(max MIN_LOT_SIZE (min MAX_LOT_SIZE lot)) * 100⌋ : ℤ) : ℚ) / 100 ≤
        MAX_LOT_SIZE := by
    intro lot
    set c := max MIN_LOT_SIZE (min MAX_LOT_SIZE lot) with hc
    have hc1 : MIN_LOT_SIZE ≤ c := le_max_left _ _
    have hc2 : c ≤ MAX_LOT_SIZE := max_le hminmax (min_le_left _ _)
    have hlow : (1 : ℤ) ≤ ⌊c * 100⌋ := by
      rw [Int.le_floor]
      push_cast
      have : (1 : ℚ) / 100 * 100 ≤ c * 100 := by
        have h100 : (0 : ℚ) < 100 := by norm_num
        exact mul_le_mul_of_nonneg_right
          (by simpa [MIN_LOT_SIZE] using hc1) (le_of_lt h100)
      linarith
    have hhigh : ((⌊c * 100⌋ : ℤ) : ℚ) ≤ c * 100 := Int.floor_le _
    have hcast : (1 : ℚ) ≤ ((⌊c * 100⌋ : ℤ) : ℚ) := by exact_mod_cast hlow
    constructor
    · rw [MIN_LOT_SIZE]
      linarith
    · have : c * 100 ≤ 1000 := by
        have := hc2
        rw [MAX_LOT_SIZE] at this
        linarith
      rw [MAX_LOT_SIZE]
      linarith
  have hminMul : MIN_LOT_SIZE = ((1 : ℤ) : ℚ) / 100 := by norm_num [MIN_LOT_SIZE]
  refine ⟨?_, ?_, ?_, ?_, ?_⟩
  · intro ai si rp points hpos
    have hns : ¬ (points / 10 ≤ 0) := not_le.2 hpos
    by_cases hz : si.trade_contract_size * (1 / 100) * (points / 10) = 0
    · have hcode : AccountMonitor.calculate_lot_size (some ai) (some si) rp points =
          MIN_LOT_SIZE := by
        simp only [AccountMonitor.calculate_lot_size]
        rw [if_neg hns, if_pos hz]
      have hspec : lotSizeSpec (ai.balance * (rp / 100))
          (si.trade_contract_size * (1 / 100)) (points / 10) = MIN_LOT_SIZE := by
        unfold lotSizeSpec
        rw [hz, div_zero]
        have hmin : min MAX_LOT_SIZE (0 : ℚ) = 0 :=
          min_eq_right (by norm_num [MAX_LOT_SIZE])
        have hmax : max MIN_LOT_SIZE (0 : ℚ) = MIN_LOT_SIZE :=
          max_eq_left (by norm_num [MIN_LOT_SIZE])
        rw [hmin, hmax]
        rw [show MIN_LOT_SIZE * 100 = (1 : ℚ) by norm_num [MIN_LOT_SIZE]]
        rw [Int.floor_one]
        norm_num [MIN_LOT_SIZE]
      rw [hcode, hspec]
    · simp only [AccountMonitor.calculate_lot_size, lotSizeSpec]
      rw [if_neg hns, if_neg hz]
  · intro account_info symbol_info rp points
    match account_info, symbol_info with
    | none, none => exact ⟨le_refl _, hminmax, 1, hminMul⟩
    | none, some si => exact ⟨le_refl _, hminmax, 1, hminMul⟩
    | some ai, none => exact ⟨le_refl _, hminmax, 1, hminMul⟩
    | some ai, some si =>
        by_cases hns : points / 10 ≤ 0
        · have hval : AccountMonitor.calculate_lot_size (some ai) (some si) rp points =
              MIN_LOT_SIZE := by
            simp only [AccountMonitor.calculate_lot_size]
            rw [if_pos hns]
          rw [hval]
          exact ⟨le_refl _, hminmax, 1, hminMul⟩
        · by_cases hz : si.trade_contract_size * (1 / 100) * (points / 10) = 0
          · have hval : AccountMonitor.calculate_lot_size (some ai) (some si) rp points =
                MIN_LOT_SIZE := by
              simp only [AccountMonitor.calculate_lot_size]
              rw [if_neg hns, if_pos hz]
            rw [hval]
            exact ⟨le_refl _, hminmax, 1, hminMul⟩
          · have hval : AccountMonitor.calculate_lot_size (some ai) (some si) rp points =
                ((⌊(max MIN_LOT_SIZE (min MAX_LOT_SIZE
                  (ai.balance * (rp / 100) /
                    (si.trade_contract_size * (1 / 100) * (points / 10))))) * 100⌋ : ℤ) : ℚ) /
                  100 := by
              simp only [AccountMonitor.calculate_lot_size]
              rw [if_neg hns, if_neg hz]
            have hb := hboundsMain
              (ai.balance * (rp / 100) / (si.trade_contract_size * (1 / 100) * (points / 10)))
            rw [hval]
            exact ⟨hb.1, hb.2, _, rfl⟩
  · intro symbol_info rp points
    cases symbol_info <;> rfl
  · intro account_info rp points
    cases account_info <;> rfl
  · intro ai si rp points hns
    simp only [AccountMonitor.calculate_lot_size]
    rw [if_pos hns]

/-- Instantiation of `calculate_lot_size_correct`: the refinement
equation at balance 1000, risk 1 %, contract size 100, 500-point stop,
and the fallback at a zero stop distance. -/
theorem calculate_lot_size_correct_witness :
    (AccountMonitor.calculate_lot_size (some { balance := 1000 })
        (some { trade_contract_size := 100 }) 1 500 =
      lotSizeSpec (1000 * ((1 : ℚ) / 100)) (100 * ((1 : ℚ) / 100)) (500 / 10)) ∧
    AccountMonitor.calculate_lot_size (some { balance := 1000 })
        (some { trade_contract_size := 100 }) 1 0 = MIN_LOT_SIZE := by
  constructor
  · exact calculate_lot_size_correct.1 { balance := 1000 } { trade_contract_size := 100 } 1 500
      (by norm_num)
  · exact calculate_lot_size_correct.2.2.2.2 { balance := 1000 } { trade_contract_size := 100 } 1 0
      (by norm_num)

/-- C6 counterexample: at balance 1000, risk 1 %, stop distance 50 pips
(500 points) and contract size 100 ($1 per pip per lot), the code does
not return 0.02. -/
theorem lot_size_scenario_not_002 :
    AccountMonitor.calculate_lot_size (some { balance := 1000 })
      (some { trade_contract_size := 100 }) 1 500 ≠ 2 / 100 := by
  norm_num [AccountMonitor.calculate_lot_size, MIN_LOT_SIZE,
    MAX_LOT_SIZE]

/-- C6 amended: at balance 1000, risk 1 %, stop distance 50 pips and $1
per pip per lot, `calculate_lot_size` returns 0.20 — the risk budget is
$10, the per-lot loss over 50 pips is $50, and 10/50 = 0.2 survives the
clamp and the floor unchanged. -/
theorem lot_size_scenario_equals_020 :
    AccountMonitor.calculate_lot_size (some { balance := 1000 })
      (some { trade_contract_size := 100 }) 1 500 = 1 / 5 := by
  norm_num [AccountMonitor.calculate_lot_size, MIN_LOT_SIZE,
    MAX_LOT_SIZE]

/-! ### Trade Reconciler (C4, C9) -/

namespace TradeMonitor

theorem stepTrade_frozen (t : TradeRow) (v : BrokerView) (h : t.TradeStatus ≠ Status.Open) :
    stepTrade t v = { row := t, delta := 0, adjusted := false, warned := false } := by
  simp [stepTrade, h]

theorem runTrade_frozen (vs : List BrokerView) (t : TradeRow)
    (h : t.TradeStatus ≠ Status.Open) : runTrade t vs = (t, 0) := by
  induction vs with
  | nil => rfl
  | cons v vs ih => simp [runTrade, stepTrade_frozen t v h, ih]

theorem resolvedInd_win_lose (q : ℚ) :
    resolvedInd (if 0 ≤ q then Status.Winning else Status.Losing) = 1 := by
  split <;> simp [resolvedInd]

theorem win_lose_ne_open (q : ℚ) :
    (if 0 ≤ q then Status.Winning else Status.Losing) ≠ Status.Open := by
  split <;> simp

theorem stepTrade_adjust_ind (t : TradeRow) (v : BrokerView) :
    (if (stepTrade t v).adjusted then 1 else 0) + resolvedInd t.TradeStatus =
      resolvedInd (stepTrade t v).row.TradeStatus := by
  by_cases h : t.TradeStatus = Status.Open
  · rw [stepTrade, if_pos h]
    rcases v with ⟨positions, deals⟩
    rcases positions with _ | ⟨p, ps⟩
    · rcases deals with _ | ⟨d, ds⟩
      · simp [_check_trade, resolvedInd, h]
      · simp only [_check_trade]
        rw [resolvedInd_win_lose]
        simp [resolvedInd, h]
    · simp [_check_trade, resolvedInd, h]
  · simp [stepTrade_frozen t v h]

theorem runTrade_adjust_count (vs : List BrokerView) (t : TradeRow) :
    (runTrade t vs).2 + resolvedInd t.TradeStatus =
      resolvedInd (runTrade t vs).1.TradeStatus := by
  induction vs generalizing t with
  | nil => simp [runTrade]
  | cons v vs ih =>
      have hstep := stepTrade_adjust_ind t v
      have hrest := ih (stepTrade t v).row
      simp only [runTrade]
      omega

end TradeMonitor

/-- C4: over any sequence of reconciliation steps a trade's status only
moves forward — each step either keeps the status or takes it from
`Open` to a non-`Open` status, and a non-`Open` row is never touched
again (the reconciler selects only `'Open'` rows) — and the number of
balance adjustments performed for a trade that starts `Open` is exactly
one if it ends `Winning`/`Losing` and zero otherwise (never twice,
never zero for a resolved trade). -/
theorem trade_status_forward_balance_once :
    (∀ (t : TradeRow) (v : BrokerView),
      (TradeMonitor.stepTrade t v).row.TradeStatus = t.TradeStatus ∨
      (t.TradeStatus = Status.Open ∧
        (TradeMonitor.stepTrade t v).row.TradeStatus ≠ Status.Open)) ∧
    (∀ (t : TradeRow) (vs : List BrokerView), t.TradeStatus ≠ Status.Open →
      TradeMonitor.runTrade t vs = (t, 0)) ∧
    (∀ (t : TradeRow) (vs : List BrokerView), t.TradeStatus = Status.Open →
      (TradeMonitor.runTrade t vs).2 =
        TradeMonitor.resolvedInd (TradeMonitor.runTrade t vs).1.TradeStatus) := by
  refine ⟨?_, ?_, ?_⟩
  · intro t v
    by_cases h : t.TradeStatus = Status.Open
    · rw [TradeMonitor.stepTrade, if_pos h]
      rcases v with ⟨positions, deals⟩
      rcases positions with _ | ⟨p, ps⟩
      · rcases deals with _ | ⟨d, ds⟩
        · right
          refine ⟨h, ?_⟩
          simp [TradeMonitor._check_trade]
        · right
          refine ⟨h, ?_⟩
          simp only [TradeMonitor._check_trade]
          exact TradeMonitor.win_lose_ne_open _
      · left
        simp [TradeMonitor._check_trade]
    · left
      simp [TradeMonitor.stepTrade_frozen t v h]
  · intro t vs h
    exact TradeMonitor.runTrade_frozen vs t h
  · intro t vs h
    have := TradeMonitor.runTrade_adjust_count vs t
    rw [TradeMonitor.resolvedInd, if_neg (by simp [h])] at this
    omega

/-- Instantiation of `trade_status_forward_balance_once` on an `Open`
trade settled by a single profitable historical deal: exactly one
balance adjustment. -/
theorem trade_status_forward_balance_once_witness :
    (TradeMonitor.runTrade
        { TradeID := 1, AccountID := 1, TradeStatus := Status.Open,
          TradeProfitLose := none, TradeClosePrice := none, TradeCloseTime := none }
        [{ positions := [], deals := [{ profit := 5, swap := 0, commission := 0,
                                        price := 2010, time := 100 }] }]).2 =
      TradeMonitor.resolvedInd
        (TradeMonitor.runTrade
          { TradeID := 1, AccountID := 1, TradeStatus := Status.Open,
            TradeProfitLose := none, TradeClosePrice := none, TradeCloseTime := none }
          [{ positions := [], deals := [{ profit := 5, swap := 0, commission := 0,
                                          price := 2010, time := 100 }] }]).1.TradeStatus ∧
    TradeMonitor.runTrade
        { TradeID := 2, AccountID := 1, TradeStatus := Status.Closed,
          TradeProfitLose := none, TradeClosePrice := none, TradeCloseTime := none }
        [{ positions := [], deals := [] }] =
      ({ TradeID := 2, AccountID := 1, TradeStatus := Status.Closed,
         TradeProfitLose := none, TradeClosePrice := none, TradeCloseTime := none }, 0) :=
  ⟨trade_status_forward_balance_once.2.2 _ _ rfl,
   trade_status_forward_balance_once.2.1 _ _ (by decide)⟩

/-- C9 counterexample: an `Open` trade first refreshed while live
(floating profit 5) and then vanished from both live positions and
history is marked `Closed` but keeps profit/loss `some 5`, not `none`
as the claim states. -/
theorem reconciler_vanished_counterexample :
    (TradeMonitor.stepTrade
        (TradeMonitor.stepTrade
          { TradeID := 1, AccountID := 1, TradeStatus := Status.Open,
            TradeProfitLose := none, TradeClosePrice := none, TradeCloseTime := none }
          { positions := [5], deals := [] }).row
        { positions := [], deals := [] }).row.TradeStatus = Status.Closed ∧
    (TradeMonitor.stepTrade
        (TradeMonitor.stepTrade
          { TradeID := 1, AccountID := 1, TradeStatus := Status.Open,
            TradeProfitLose := none, TradeClosePrice := none, TradeCloseTime := none }
          { positions := [5], deals := [] }).row
        { positions := [], deals := [] }).row.TradeProfitLose = some 5 ∧
    some (5 : ℚ) ≠ (none : Option ℚ) := by
  refine ⟨rfl, rfl, by simp⟩

/-- C9 amended: a previously-`Open` trade found in neither live
positions nor historical deals is marked `Closed` with a warning and no
balance change, and its profit/loss and close fields are left unchanged
— `none` only when no floating refresh ever wrote a value. -/
theorem reconciler_vanished_amended (t : TradeRow) (v : BrokerView)
    (ht : t.TradeStatus = Status.Open) (hp : v.positions = []) (hd : v.deals = []) :
    (TradeMonitor.stepTrade t v).row.TradeStatus = Status.Closed ∧
    (TradeMonitor.stepTrade t v).row.TradeProfitLose = t.TradeProfitLose ∧
    (TradeMonitor.stepTrade t v).row.TradeClosePrice = t.TradeClosePrice ∧
    (TradeMonitor.stepTrade t v).row.TradeCloseTime = t.TradeCloseTime ∧
    (TradeMonitor.stepTrade t v).delta = 0 ∧
    (TradeMonitor.stepTrade t v).adjusted = false ∧
    (TradeMonitor.stepTrade t v).warned = true := by
  rcases v with ⟨positions, deals⟩
  simp only at hp hd
  subst hp
  subst hd
  simp [TradeMonitor.stepTrade, TradeMonitor._check_trade, ht]

/-- Instantiation of `reconciler_vanished_amended` on a fresh `Open`
trade that vanishes immediately: profit/loss stays `none`. -/
theorem reconciler_vanished_amended_witness :
    (TradeMonitor.stepTrade
        { TradeID := 3, AccountID := 1, TradeStatus := Status.Open,
          TradeProfitLose := none, TradeClosePrice := none, TradeCloseTime := none }
        { positions := [], deals := [] }).row.TradeStatus = Status.Closed ∧
    (TradeMonitor.stepTrade
        { TradeID := 3, AccountID := 1, TradeStatus := Status.Open,
          TradeProfitLose := none, TradeClosePrice := none, TradeCloseTime := none }
        { positions := [], deals := [] }).row.TradeProfitLose = none := by
  have h := reconciler_vanished_amended
    { TradeID := 3, AccountID := 1, TradeStatus := Status.Open,
      TradeProfitLose := none, TradeClosePrice := none, TradeCloseTime := none }
    { positions := [], deals := [] } rfl rfl rfl
  exact ⟨h.1, h.2.1⟩

/-! ### Zone Refresher (C7) -/

/-- C7 counterexample: a cycle whose session-gated recomputation fails
outright (`none`: the session could not be opened) and whose CSV is
missing still replaces the Zone Cache — with the empty list — rather
than leaving its previous contents untouched. -/
theorem refresher_failure_still_replaces_counterexample :
    DataUpdater.updaterCycle none none none [zoneSampleA] = [] ∧
    ([] : List Zone) ≠ [zoneSampleA] := by
  exact ⟨rfl, by simp⟩

/-- C7 amended: every refresher cycle replaces the Zone Cache with the
zones re-read from the CSV file, regardless of whether the session-gated
recomputation succeeded and regardless of the cache's previous contents;
in particular a failed recomputation with a missing or unreadable CSV
replaces the cache with the empty list.  (Failures are returned as
values — `run_fvg_analysis` and `load_fvg_zones` catch their exceptions
— so the loop itself never terminates on one.) -/
theorem refresher_always_replaces :
    (∀ (a₁ a₂ : Option Bool) (csv : Option (List FvgRow)) (scoreFn : Option (FvgRow → ℚ))
        (cache₁ cache₂ : List Zone),
      DataUpdater.updaterCycle a₁ csv scoreFn cache₁ =
        DataUpdater.updaterCycle a₂ csv scoreFn cache₂) ∧
    (∀ (a : Option Bool) (csv : Option (List FvgRow)) (scoreFn : Option (FvgRow → ℚ))
        (cache : List Zone),
      DataUpdater.updaterCycle a csv scoreFn cache = DataUpdater.load_fvg_zones csv scoreFn) ∧
    (∀ (a : Option Bool) (scoreFn : Option (FvgRow → ℚ)) (cache : List Zone),
      DataUpdater.updaterCycle a none scoreFn cache = []) :=
  ⟨fun _ _ _ _ _ _ => rfl, fun _ _ _ _ => rfl, fun _ _ _ => rfl⟩

end TradeAi
